import Mathlib

/-!
Verification of the makesite static-site generator (`makesite.py`) via a
shallow embedding in Lean.  Pure path and date manipulation is translated
directly; the external pandoc converter and the filesystem are modelled as
opaque inputs (a `SrcFile` carries the outcome of `pandoc.read`, the
formatted `os.stat` mtime, and the html that `pandoc.write` would return).
-/

namespace Makesite

/-! ### Path helpers: `str.split("/")`, `os.path.splitext`, path joining -/

/-- Python `s.split("/")` on a character list: split at every `'/'`.
`"".split("/") == [""]`, `"a//b".split("/") == ["a","","b"]`. -/
def splitOnSlash : List Char → List (List Char)
  | [] => [[]]
  | c :: rest =>
    let r := splitOnSlash rest
    if c = '/' then [] :: r
    else
      match r with
      | h :: t => (c :: h) :: t
      | [] => [[c]]

/-- Helper for `os.path.splitext` on a single (slash-free) path component:
returns `some (stem, ext)` when the component has an extension, i.e. when it
has a last dot preceded (anywhere in the component) by a non-dot character.
`seen` records whether a non-dot character has occurred so far.
Mirrors `genericpath._splitext`'s scan (`".bashrc"`, `"..x"` have no
extension; `"a.tar.gz"` splits at the last dot). -/
def baseSplit (seen : Bool) : List Char → Option (List Char × List Char)
  | [] => none
  | c :: cs =>
    match baseSplit (seen || decide (c ≠ '.')) cs with
    | some (st, ex) => some (c :: st, ex)
    | none => if c = '.' && seen then some ([], c :: cs) else none

/-- `os.path.splitext` (posix): split off the extension of the last path
component.  The dot logic applies only after the last `'/'`. -/
def splitext (s : String) : String × String :=
  match baseSplit false ((splitOnSlash s.toList).getLastD []) with
  | some (_, ex) =>
    ((s.toList.take (s.toList.length - ex.length)).asString, ex.asString)
  | none => (s, "")

/-- Join path segments with `"/"` (the shape of the strings produced by
`os.path.relpath(path, "content")` for paths under `content/`). -/
def joinSegs : List String → String
  | [] => ""
  | [s] => s
  | s :: rest => s ++ "/" ++ joinSegs rest

/-- The source path of a content file, as produced by
`glob("content/**", recursive=True)`. -/
def srcPath (segs : List String) : String := "content/" ++ joinSegs segs

/-- Python `s.replace("content/", "_site/")` on the character list:
scan left to right and substitute every (non-overlapping, leftmost)
occurrence of `content/`, not only a leading one. -/
def replaceContent : List Char → List Char
  | 'c' :: 'o' :: 'n' :: 't' :: 'e' :: 'n' :: 't' :: '/' :: rest =>
    '_' :: 's' :: 'i' :: 't' :: 'e' :: '/' :: replaceContent rest
  | c :: rest => c :: replaceContent rest
  | [] => []

/-- `src.replace("content/", f"{self.outpath}/")` for a discovered content
file (line 68; `self.outpath` is `"_site"`).  Because `str.replace`
substitutes every occurrence, a directory whose name ends in `content`
is rewritten as well (`content/subcontent/img.png` becomes
`_site/sub_site/img.png`). -/
def dstPath (segs : List String) : String :=
  (replaceContent ("content/" ++ joinSegs segs).toList).asString

/-! ### The filename regex `^(?:(\d\d\d\d-\d\d-\d\d)-)?(.+)$` -/

/-- Does a ten-character list match `\d\d\d\d-\d\d-\d\d`? -/
def dateShape : List Char → Bool
  | [a, b, c, d, h1, e, f, h2, g, k] =>
    a.isDigit && b.isDigit && c.isDigit && d.isDigit && h1 = '-' &&
    e.isDigit && f.isDigit && h2 = '-' && g.isDigit && k.isDigit
  | _ => false

/-- Match `(.+)$` against the remainder of the subject (no `re.MULTILINE`):
`.` does not match a newline and `$` matches at the end of the string or
just before a single trailing newline.  Returns the text captured by the
group. -/
def dotPlusDollar (cs : List Char) : Option (List Char) :=
  if cs.contains '\n' then
    if cs.getLast? = some '\n' && !(cs.dropLast.contains '\n') && !cs.dropLast.isEmpty
    then some cs.dropLast else none
  else if cs.isEmpty then none else some cs

/-- `re.search(r"^(?:(\d\d\d\d-\d\d-\d\d)-)?(.+)$", s)`: the greedy optional
group takes an 11-character `YYYY-MM-DD-` head when the rest still matches
`(.+)$`; otherwise the whole subject is matched by the second group.
Returns `(group 1, group 2)` or `none` when there is no match. -/
def reSearchDT (s : String) : Option (Option String × String) :=
  let cs := s.toList
  if dateShape (cs.take 10) && decide (cs.getD 10 ' ' = '-') then
    match dotPlusDollar (cs.drop 11) with
    | some r => some (some (cs.take 10).asString, r.asString)
    | none => (dotPlusDollar cs).map (fun r => (none, r.asString))
  else (dotPlusDollar cs).map (fun r => (none, r.asString))

/-! ### `datetime.strptime(date, "%Y-%m-%d")` and
`strftime("%a, %d %b %Y %H:%M:%S +0000")` -/

/-- Candidates (in regex alternation order) for `%m`, pattern
`1[0-2]|0[1-9]|[1-9]`, each with the unconsumed remainder. -/
def monthCands (cs : List Char) : List (Nat × List Char) :=
  (match cs with
   | '1' :: c :: rest =>
     if c = '0' || c = '1' || c = '2' then [(10 + (c.toNat - 48), rest)] else []
   | _ => []) ++
  (match cs with
   | '0' :: c :: rest =>
     if '1' ≤ c && c ≤ '9' then [(c.toNat - 48, rest)] else []
   | _ => []) ++
  (match cs with
   | c :: rest => if '1' ≤ c && c ≤ '9' then [(c.toNat - 48, rest)] else []
   | _ => [])

/-- Candidates (in regex alternation order) for `%d`, pattern
`3[01]|[12]\d|0[1-9]|[1-9]`. -/
def dayCands (cs : List Char) : List (Nat × List Char) :=
  (match cs with
   | '3' :: c :: rest =>
     if c = '0' || c = '1' then [(30 + (c.toNat - 48), rest)] else []
   | _ => []) ++
  (match cs with
   | c :: d :: rest =>
     if (c = '1' || c = '2') && d.isDigit
     then [((c.toNat - 48) * 10 + (d.toNat - 48), rest)] else []
   | _ => []) ++
  (match cs with
   | '0' :: c :: rest =>
     if '1' ≤ c && c ≤ '9' then [(c.toNat - 48, rest)] else []
   | _ => []) ++
  (match cs with
   | c :: rest => if '1' ≤ c && c ≤ '9' then [(c.toNat - 48, rest)] else []
   | _ => [])

/-- The format regex of `strptime("%Y-%m-%d")`: four year digits, `-`,
month alternation, `-`, day alternation, end of input (strptime rejects
unconverted trailing data).  Backtracks through the alternation candidates. -/
def parseYmd (s : String) : Option (Nat × Nat × Nat) :=
  match s.toList with
  | y1 :: y2 :: y3 :: y4 :: '-' :: rest =>
    if y1.isDigit && y2.isDigit && y3.isDigit && y4.isDigit then
      let y := (y1.toNat - 48) * 1000 + (y2.toNat - 48) * 100 +
               (y3.toNat - 48) * 10 + (y4.toNat - 48)
      (monthCands rest).findSome? (fun mc =>
        match mc.2 with
        | '-' :: r2 =>
          (dayCands r2).findSome? (fun dc =>
            if dc.2.isEmpty then some (y, mc.1, dc.1) else none)
        | _ => none)
    else none
  | _ => none

def isLeap (y : Nat) : Bool := y % 4 = 0 && (y % 100 ≠ 0 || y % 400 = 0)

def daysInMonth (y m : Nat) : Nat :=
  if m = 2 then (if isLeap y then 29 else 28)
  else if m = 4 || m = 6 || m = 9 || m = 11 then 30 else 31

/-- `datetime.strptime(s, "%Y-%m-%d")`: format-regex match plus the
`datetime` constructor's validation (year at least `MINYEAR = 1`, day no
larger than the month's length). -/
def strptimeYmd (s : String) : Option (Nat × Nat × Nat) :=
  (parseYmd s).bind (fun t =>
    if 1 ≤ t.1 && t.2.2 ≤ daysInMonth t.1 t.2.1 then some t else none)

/-- Day of week (0 = Sunday) by Sakamoto's method, as used by `strftime %a`. -/
def weekday (y m d : Nat) : Nat :=
  let yy := if m < 3 then y - 1 else y
  (yy + yy / 4 - yy / 100 + yy / 400 +
    ([0, 3, 2, 5, 0, 3, 5, 1, 4, 6, 2, 4].getD (m - 1) 0) + d) % 7

def dayAbbr : List String := ["Sun", "Mon", "Tue", "Wed", "Thu", "Fri", "Sat"]

def monAbbr : List String :=
  ["Jan", "Feb", "Mar", "Apr", "May", "Jun",
   "Jul", "Aug", "Sep", "Oct", "Nov", "Dec"]

def pad2 (n : Nat) : String := if n < 10 then "0" ++ toString n else toString n

def pad4 (n : Nat) : String :=
  if n < 10 then "000" ++ toString n
  else if n < 100 then "00" ++ toString n
  else if n < 1000 then "0" ++ toString n
  else toString n

/-- `strftime("%a, %d %b %Y %H:%M:%S +0000")` of a midnight date. -/
def strftimeRfc (y m d : Nat) : String :=
  dayAbbr.getD (weekday y m d) "" ++ ", " ++ pad2 d ++ " " ++
  monAbbr.getD (m - 1) "" ++ " " ++ pad4 y ++ " 00:00:00 +0000"

/-- Lines 176-178 of `makesite.py`: parse `meta["date"]` with
`strptime("%Y-%m-%d")` and reformat; `none` is the `ValueError` case. -/
def rfc2822OfDate (s : String) : Option String :=
  (strptimeYmd s).map (fun t => strftimeRfc t.1 t.2.1 t.2.2)

/-! ### Python values and insertion-ordered dicts -/

/-- The values `meta2dict` can place in a metadata dict: a string (from
`MetaInlines` rendering or a scalar leaf) or a nested dict (from a nested
`MetaMap`). -/
inductive PyVal where
  | str : String → PyVal
  | dict : List (String × PyVal) → PyVal
deriving Repr

mutual

/-- Boolean equality on `PyVal` (the derive handler does not support the
nested inductive). -/
def PyVal.beq : PyVal → PyVal → Bool
  | .str a, .str b => a == b
  | .dict a, .dict b => PyVal.beqEntries a b
  | _, _ => false

def PyVal.beqEntries : List (String × PyVal) → List (String × PyVal) → Bool
  | [], [] => true
  | (k1, v1) :: r1, (k2, v2) :: r2 =>
    k1 == k2 && PyVal.beq v1 v2 && PyVal.beqEntries r1 r2
  | _, _ => false

end

mutual

theorem PyVal.beq_iff : ∀ a b : PyVal, PyVal.beq a b = true ↔ a = b
  | .str a, .str b => by simp [PyVal.beq]
  | .str a, .dict b => by simp [PyVal.beq]
  | .dict a, .str b => by simp [PyVal.beq]
  | .dict a, .dict b => by
    simp only [PyVal.beq, PyVal.dict.injEq]
    exact PyVal.beqEntries_iff a b

theorem PyVal.beqEntries_iff :
    ∀ a b : List (String × PyVal), PyVal.beqEntries a b = true ↔ a = b
  | [], [] => by simp [PyVal.beqEntries]
  | [], _ :: _ => by simp [PyVal.beqEntries]
  | _ :: _, [] => by simp [PyVal.beqEntries]
  | (k1, v1) :: r1, (k2, v2) :: r2 => by
    simp only [PyVal.beqEntries, Bool.and_eq_true, beq_iff_eq, List.cons.injEq,
      Prod.mk.injEq, PyVal.beq_iff v1 v2, PyVal.beqEntries_iff r1 r2]
    try tauto

end

instance : DecidableEq PyVal := fun a b =>
  decidable_of_iff _ (PyVal.beq_iff a b)

/-- A Python dict with string keys, as an insertion-ordered association
list with unique keys. -/
abbrev PageMeta := List (String × PyVal)

/-- `d[k]` lookup (first, hence only, occurrence of the key). -/
def dget (d : PageMeta) (k : String) : Option PyVal :=
  (d.find? (fun p => p.1 = k)).map (·.2)

/-- `d[k] = v`: replace in place when the key exists, else append. -/
def dset (d : PageMeta) (k : String) (v : PyVal) : PageMeta :=
  if d.any (fun p => p.1 = k) then
    d.map (fun p => if p.1 = k then (k, v) else p)
  else d ++ [(k, v)]

/-- `d.update(e)`: assign each entry of `e` in order. -/
def dupdate (d e : PageMeta) : PageMeta :=
  e.foldl (fun acc p => dset acc p.1 p.2) d

/-- `d.setdefault(k, v)`. -/
def dsetdefault (d : PageMeta) (k : String) (v : PyVal) : PageMeta :=
  if d.any (fun p => p.1 = k) then d else d ++ [(k, v)]

/-! ### Pandoc metadata trees and `Page.meta2dict` -/

/-- A node of the pandoc metadata tree, as discriminated by the
`isinstance` chain in `Page.meta2dict`: a `MetaMap` (wrapping a dict of
children), a `MetaInlines` (whose payload we represent by the string that
`pandoc.write([Para(meta[0])])` would return), any other `MetaValue`
subtype (represented by its raw scalar `meta[0]` rendered as a string), or
a foreign object outside the recognized set. -/
inductive MetaNode where
  | metaMap : List (String × MetaNode) → MetaNode
  | metaInlines : String → MetaNode
  | metaLeaf : String → MetaNode
  | unknownNode : MetaNode
deriving Repr

/-- Python `str.rstrip()`: drop trailing whitespace. -/
def pyRstrip (s : String) : String :=
  ((s.toList.reverse.dropWhile Char.isWhitespace).reverse).asString

mutual

/-- `Page.meta2dict` on a single node (the `Pandoc`/`Meta` unwrapping of
the top level is handled by the caller `meta2dictEntries`).  A foreign
node raises `Exception("Metadata type not found")`. -/
def meta2dict : MetaNode → Except String PyVal
  | .metaMap l => (meta2dictEntries l).map PyVal.dict
  | .metaInlines s => .ok (.str (pyRstrip s))
  | .metaLeaf s => .ok (.str s)
  | .unknownNode => .error "Metadata type not found"

/-- `Page.meta2dict` on a dict: convert each entry in order; the first
raising entry propagates. -/
def meta2dictEntries : List (String × MetaNode) → Except String PageMeta
  | [] => .ok []
  | (k, v) :: rest => do
    let pv ← meta2dict v
    let prest ← meta2dictEntries rest
    .ok ((k, pv) :: prest)

end

/-- The pandoc document owned by a `Page`: the metadata dict inside
`Pandoc(Meta(dict), blocks)` and the html text that
`pandoc.write(page.pandoc, format="html")` returns (the converter itself
is external). -/
structure PandocDoc where
  docMeta : List (String × MetaNode)
  html : String
deriving Repr

/-! ### `Page.getmeta` -/

/-- Lines 158-168 of `makesite.py`: the path-derived metadata.
`segs` are the path components of the file under `content/` (so
`os.path.relpath(path, "content")` is `joinSegs segs` and the basename is
the last component); `lastModified` is the already-formatted
`YYYY-MM-DD` mtime.  `none` is the `AttributeError` raised by
`match.group` when the regex does not match. -/
def pathMeta (segs : List String) (lastModified : String) : Option PageMeta :=
  let basename := segs.getLastD ""
  let dt := (splitext basename).1
  match reSearchDT dt with
  | none => none
  | some (g1, g2) =>
    let date := g1.getD lastModified
    let m := dset (dset [] "date" (.str date)) "title" (.str g2)
    let relpath := (splitext (joinSegs segs)).1 ++ ".html"
    let m := dset m "relpath" (.str relpath)
    let paths := (splitOnSlash relpath.toList).map List.asString
    some (dset m "category"
      (.str (if paths.length > 0 then paths.getD 0 "" else "")))

/-- `Page.getmeta` (lines 155-181): path metadata, then the document
metadata folded in (a failure there is caught, logged and skipped), then
`rfc_2822_date` from the final `date` value (a `strptime` failure — wrong
format, or a non-string `date` from the front matter — escapes to the
caller), then the `summary` default.  Returns the metadata together with
the log messages emitted. -/
def getmeta (segs : List String) (lastModified : String) (doc : PandocDoc) :
    Except String (PageMeta × List String) :=
  match pathMeta segs lastModified with
  | none => .error "AttributeError"
  | some pm =>
    let (m, logs) :=
      match meta2dictEntries doc.docMeta with
      | .ok docmeta => (dupdate pm docmeta, [])
      | .error _ => (pm, ["unable to decode metadata for " ++ srcPath segs])
    match dget m "date" with
    | some (.str d) =>
      match rfc2822OfDate d with
      | some r =>
        .ok (dsetdefault (dset m "rfc_2822_date" (.str r)) "summary" (.str ""), logs)
      | none => .error "DateFormatError"
    | _ => .error "TypeError: strptime() argument 1 must be str"

/-! ### Pages and the site pipeline -/

/-- A regular file discovered by `glob("content/**", recursive=True)`:
its path components under `content/`, the formatted mtime from `os.stat`,
and the outcome of `pandoc.read` on it (`error` for a malformed document
or unsupported format). -/
structure SrcFile where
  segs : List String
  lastModified : String
  readDoc : Except String PandocDoc
deriving Repr

/-- `Page.__init__`: `pandoc.read`, then `getmeta`; either failure
propagates to the `try` in `Site.create_pages`. -/
def pageOf (f : SrcFile) : Except String (PandocDoc × PageMeta × List String) :=
  match f.readDoc with
  | .error e => .error e
  | .ok doc =>
    match getmeta f.segs f.lastModified doc with
    | .error e => .error e
    | .ok (m, logs) => .ok (doc, m, logs)

/-- `is_pandoc`: is the file's extension a key of
`pandoc._ext_to_file_format`?  The mapping belongs to the external pandoc
library and is a parameter `extMap` of the model. -/
def is_pandoc (extMap : List String) (x : String) : Bool :=
  extMap.contains (splitext x).2

/-- Line 81 of `makesite.py`:
`dict(self.gcontext, content=XML(html), **page.meta)`.  Both
`content=...` and `**page.meta` are keyword arguments, so a `content` key
in the page metadata raises an uncaught `TypeError` (duplicate keyword
argument); otherwise the context is the global context, then the
`content` entry, then every metadata entry assigned in order. -/
def mkContext (g : PageMeta) (html : String) (m : PageMeta) : Except String PageMeta :=
  if m.any (fun p => p.1 = "content") then
    .error "TypeError: got multiple values for keyword argument content"
  else .ok (dupdate (dset g "content" (.str html)) m)

/-- Render a `PyVal` into path text the way an f-string would (only the
string case occurs for well-formed metadata). -/
def pyStr : PyVal → String
  | .str s => s
  | .dict _ => "<dict>"

/-- Which layout a page is written through. -/
inductive LayoutKind where
  | pageLayout
  | postLayout
deriving Repr, DecidableEq

/-- One output page written by `Site.write`: destination (the metadata's
`relpath`), the layout used, and the rendering context handed to the
template renderer. -/
structure WrittenPage where
  relpath : String
  layout : LayoutKind
  context : PageMeta
deriving Repr

/-- `cat2metas[category].append(meta)` on the insertion-ordered
`defaultdict(list)`. -/
def catAppend (c2m : List (String × List PageMeta)) (cat : String) (m : PageMeta) :
    List (String × List PageMeta) :=
  if c2m.any (fun p => p.1 = cat) then
    c2m.map (fun p => if p.1 = cat then (p.1, p.2 ++ [m]) else p)
  else c2m ++ [(cat, [m])]

/-- The accumulated effects of `Site.create_pages`: files copied
verbatim, pages written, the category index lists, and the log lines
emitted. -/
structure BuildState where
  copied : List String
  written : List WrittenPage
  cat2metas : List (String × List PageMeta)
  logs : List String
deriving Repr

def initState : BuildState := ⟨[], [], [], []⟩

/-- One iteration of the loop in `Site.create_pages` (lines 63-89).
A file with a non-empty extension unknown to pandoc is copied verbatim.
Otherwise a `Page` is built; a failure there is caught, logged and the
file skipped.  The rendering context is built (a metadata `content` key
aborts the build, see `mkContext`); a root page (a single path component,
i.e. `os.path.dirname(src) == "content"`) goes through the `page.html`
layout, any other page goes through `post.html` and its metadata is
appended to its category's list (a non-string category value would be an
unhashable dict key, an uncaught `TypeError`). -/
def processFile (g : PageMeta) (extMap : List String) (st : BuildState) (f : SrcFile) :
    Except String BuildState :=
  let src := srcPath f.segs
  if (splitext src).2 ≠ "" && !is_pandoc extMap src then
    .ok { st with copied := st.copied ++ [dstPath f.segs] }
  else
    match pageOf f with
    | .error _ =>
      .ok { st with logs := st.logs ++ ["unable to parse " ++ src] }
    | .ok (doc, m, plogs) =>
      match mkContext g doc.html m with
      | .error e => .error e
      | .ok ctx =>
        let relpath := pyStr ((dget m "relpath").getD (.str ""))
        if f.segs.length = 1 then
          .ok { st with
                written := st.written ++ [⟨relpath, .pageLayout, ctx⟩],
                logs := st.logs ++ plogs }
        else
          match dget m "category" with
          | some (.str cat) =>
            .ok { st with
                  written := st.written ++ [⟨relpath, .postLayout, ctx⟩],
                  cat2metas := catAppend st.cat2metas cat m,
                  logs := st.logs ++ plogs }
          | _ => .error "TypeError: unhashable type"

/-- `Site.create_pages`: fold the loop body over the discovered files;
an uncaught exception aborts the run. -/
def create_pages (g : PageMeta) (extMap : List String) (files : List SrcFile) :
    Except String BuildState :=
  files.foldlM (processFile g extMap) initState

/-! ### Sorting and the indexes -/

/-- The sort key `meta["date"]` (always a string for indexed pages,
since a page with a non-string date was dropped by `strptime`). -/
def dateKey (m : PageMeta) : String :=
  match dget m "date" with
  | some (.str s) => s
  | _ => ""

/-- Lexicographic `≤` on character lists by code point — Python's string
comparison. -/
def leChars : List Char → List Char → Bool
  | [], _ => true
  | _ :: _, [] => false
  | a :: as, b :: bs =>
    a.toNat < b.toNat || (a.toNat = b.toNat && leChars as bs)

/-- Python `a <= b` on strings. -/
def pyLe (a b : String) : Bool := leChars a.toList b.toList

theorem leChars_total : ∀ a b, leChars a b = true ∨ leChars b a = true
  | [], _ => Or.inl rfl
  | _ :: _, [] => Or.inr rfl
  | a :: as, b :: bs => by
    rcases Nat.lt_trichotomy a.toNat b.toNat with h | h | h
    · exact Or.inl (by simp [leChars, h])
    · rcases leChars_total as bs with ih | ih
      · exact Or.inl (by simp [leChars, h, ih])
      · exact Or.inr (by simp [leChars, h.symm, ih])
    · exact Or.inr (by simp [leChars, h])

theorem leChars_trans :
    ∀ a b c, leChars a b = true → leChars b c = true → leChars a c = true
  | [], _, _ => by intro _ _; rfl
  | _ :: _, [], _ => by intro h _; exact absurd h (by simp [leChars])
  | _ :: _, _ :: _, [] => by intro _ h; exact absurd h (by simp [leChars])
  | a :: as, b :: bs, c :: cs => by
    simp only [leChars, Bool.or_eq_true, Bool.and_eq_true, decide_eq_true_eq]
    rintro (h1 | ⟨h1, h1'⟩) (h2 | ⟨h2, h2'⟩)
    · exact Or.inl (Nat.lt_trans h1 h2)
    · exact Or.inl (h2 ▸ h1)
    · exact Or.inl (h1 ▸ h2)
    · exact Or.inr ⟨h1.trans h2, leChars_trans as bs cs h1' h2'⟩

/-- The ordering used by
`sorted(metas, key=lambda meta: meta["date"], reverse=True)`:
`a` may precede `b` when `a`'s date is at least `b`'s under Python's
lexicographic string comparison. -/
def dateDesc (a b : PageMeta) : Prop := pyLe (dateKey b) (dateKey a) = true

instance : DecidableRel dateDesc := fun a b =>
  (inferInstance : Decidable (pyLe (dateKey b) (dateKey a) = true))

instance : IsTotal PageMeta dateDesc :=
  ⟨fun a b => leChars_total (dateKey b).toList (dateKey a).toList⟩

instance : IsTrans PageMeta dateDesc :=
  ⟨fun _ _ _ h1 h2 => leChars_trans _ _ _ h2 h1⟩

/-- `sorted(metas, key=..., reverse=True)`: Python's sort is stable and
`reverse=True` preserves the original order of equal keys, so it is the
unique stable descending sort — insertion sort with `dateDesc`. -/
def pySortDescByDate (l : List PageMeta) : List PageMeta :=
  l.insertionSort dateDesc

/-- `str.capitalize()`. -/
def pyCapitalize (s : String) : String :=
  ((s.toList.take 1).map Char.toUpper ++ (s.toList.drop 1).map Char.toLower).asString

/-- One index produced by `Site.create_index`: the path argument, the
metadata sequence rendered (in order) through `item.html`/`item.xml`, the
base context, and the two destinations `path/index.html` and
`path/rss.xml`. -/
structure IndexOut where
  path : String
  indexMetas : List PageMeta
  context : PageMeta
  htmlDst : String
  rssDst : String
deriving Repr

/-- `Site.create_index(metas, path, **context)`. -/
def create_index (metas : List PageMeta) (path : String) (context : PageMeta) :
    IndexOut :=
  { path := path
  , indexMetas := metas
  , context := context
  , htmlDst := path ++ "/" ++ "index.html"
  , rssDst := path ++ "/" ++ "rss.xml" }

/-- The number of posts on the home index (`nposts = 10`). -/
def nposts : Nat := 10

/-- `Site.create_indexes` (lines 97-111): one index per category over its
metadata sorted by date descending, then the home index over the first
`nposts` of all metadata (`itertools.chain` of the category lists in
insertion order) sorted by date descending, written at path `""`. -/
def create_indexes (g : PageMeta) (c2m : List (String × List PageMeta)) :
    List IndexOut :=
  (c2m.map (fun p =>
    create_index (pySortDescByDate p.2) p.1
      (dupdate (dset [] "title" (.str (pyCapitalize p.1))) g))) ++
  [create_index ((pySortDescByDate (c2m.map Prod.snd).flatten).take nposts) ""
    (dupdate (dset [] "title"
      (.str ("Most recent " ++ toString nposts ++ " posts"))) g)]

/-- The pipeline after setup: `create_pages` then `create_indexes`; the
run exits 0 exactly when this is `.ok`. -/
def runSite (g : PageMeta) (extMap : List String) (files : List SrcFile) :
    Except String (BuildState × List IndexOut) := do
  let br ← create_pages g extMap files
  .ok (br, create_indexes g br.cat2metas)

/-! ### Dict lemmas -/

theorem find?_map_replace (d : PageMeta) (k : String) (v : PyVal)
    (h : d.any (fun p => p.1 = k)) :
    (d.map (fun p => if p.1 = k then (k, v) else p)).find? (fun p => p.1 = k) =
      some (k, v) := by
  induction d with
  | nil => simp at h
  | cons p d ih =>
    by_cases hp : p.1 = k
    · simp [hp]
    · have h' : d.any (fun p => p.1 = k) := by
        simp only [List.any_cons, decide_eq_true_eq, Bool.or_eq_true] at h
        rcases h with h | h
        · exact absurd h hp
        · exact h
      simp only [List.map_cons, if_neg hp]
      rw [List.find?_cons_of_neg _ (by simpa using hp)]
      exact ih h'

theorem find?_map_replace_ne (d : PageMeta) (k k' : String) (v : PyVal)
    (h : k' ≠ k) :
    (d.map (fun p => if p.1 = k then (k, v) else p)).find? (fun p => p.1 = k') =
      d.find? (fun p => p.1 = k') := by
  induction d with
  | nil => rfl
  | cons p d ih =>
    by_cases hp : p.1 = k
    · have h1 : ¬ k = k' := fun e => h e.symm
      have h2 : ¬ p.1 = k' := hp ▸ h1
      simp only [List.map_cons, if_pos hp]
      rw [List.find?_cons_of_neg _ (by simpa using h1),
        List.find?_cons_of_neg _ (by simpa using h2), ih]
    · simp only [List.map_cons, if_neg hp]
      by_cases hq : p.1 = k'
      · rw [List.find?_cons_of_pos _ (by simpa using hq),
          List.find?_cons_of_pos _ (by simpa using hq)]
      · rw [List.find?_cons_of_neg _ (by simpa using hq),
          List.find?_cons_of_neg _ (by simpa using hq), ih]

theorem dget_dset_self (d : PageMeta) (k : String) (v : PyVal) :
    dget (dset d k v) k = some v := by
  unfold dget dset
  by_cases h : d.any (fun p => p.1 = k)
  · rw [if_pos h, find?_map_replace d k v h]
    rfl
  · rw [if_neg h, List.find?_append]
    have : d.find? (fun p => p.1 = k) = none := by
      rw [List.find?_eq_none]
      intro x hx hpx
      exact h (List.any_eq_true.mpr ⟨x, hx, hpx⟩)
    simp [this]

theorem dget_dset_ne (d : PageMeta) (k k' : String) (v : PyVal) (h : k' ≠ k) :
    dget (dset d k v) k' = dget d k' := by
  unfold dget dset
  by_cases hd : d.any (fun p => p.1 = k)
  · rw [if_pos hd, find?_map_replace_ne d k k' v h]
  · rw [if_neg hd, List.find?_append]
    have : List.find? (fun p => p.1 = k') [(k, v)] = none := by
      simp [List.find?, h.symm]
    rw [this]
    cases d.find? (fun p => p.1 = k') <;> rfl

theorem dget_dsetdefault_ne (d : PageMeta) (k k' : String) (v : PyVal)
    (h : k' ≠ k) : dget (dsetdefault d k v) k' = dget d k' := by
  unfold dget dsetdefault
  by_cases hd : d.any (fun p => p.1 = k)
  · rw [if_pos hd]
  · rw [if_neg hd, List.find?_append]
    have : List.find? (fun p => p.1 = k') [(k, v)] = none := by
      simp [List.find?, h.symm]
    rw [this]
    cases d.find? (fun p => p.1 = k') <;> rfl

/-- Updating with a dict that does not contain `k` leaves `d[k]` alone. -/
theorem dget_dupdate_of_none (d e : PageMeta) (k : String)
    (h : dget e k = none) : dget (dupdate d e) k = dget d k := by
  induction e generalizing d with
  | nil => rfl
  | cons p e ih =>
    have hp : ¬ p.1 = k := by
      intro hk
      unfold dget at h
      rw [List.find?_cons_of_pos _ (by simpa using hk)] at h
      simp at h
    have he : dget e k = none := by
      unfold dget at h ⊢
      rwa [List.find?_cons_of_neg _ (by simpa using hp)] at h
    show dget (dupdate (dset d p.1 p.2) e) k = dget d k
    rw [ih _ he, dget_dset_ne _ _ _ _ (fun hk => hp hk.symm)]

/-- Updating with a dict whose keys are unique: a key present in `e` wins. -/
theorem dget_dupdate_of_some (d e : PageMeta) (k : String) (v : PyVal)
    (hnd : (e.map Prod.fst).Nodup) (h : dget e k = some v) :
    dget (dupdate d e) k = some v := by
  induction e generalizing d with
  | nil => simp [dget] at h
  | cons p e ih =>
    have hnd' : (e.map Prod.fst).Nodup := (List.nodup_cons.mp hnd).2
    by_cases hp : p.1 = k
    · have hv : p.2 = v := by
        unfold dget at h
        rw [List.find?_cons_of_pos _ (by simpa using hp)] at h
        simpa using h
      have hke : dget e k = none := by
        have hf : List.find? (fun p => decide (p.1 = k)) e = none := by
          rw [List.find?_eq_none]
          intro x hx hpx
          have : k ∈ e.map Prod.fst := by
            simp only [decide_eq_true_eq] at hpx
            exact hpx ▸ List.mem_map_of_mem Prod.fst hx
          exact (List.nodup_cons.mp hnd).1 (hp ▸ this)
        simp [dget, hf]
      show dget (dupdate (dset d p.1 p.2) e) k = some v
      rw [dget_dupdate_of_none _ _ _ hke, hp, hv, dget_dset_self]
    · have he : dget e k = some v := by
        unfold dget at h ⊢
        rwa [List.find?_cons_of_neg _ (by simpa using hp)] at h
      show dget (dupdate (dset d p.1 p.2) e) k = some v
      exact ih _ hnd' he

/-! ### Path lemmas -/

theorem splitOnSlash_ne_nil (cs : List Char) : splitOnSlash cs ≠ [] := by
  cases cs with
  | nil => simp [splitOnSlash]
  | cons c rest =>
    unfold splitOnSlash
    by_cases h : c = '/'
    · simp [h]
    · simp only [if_neg h]
      cases splitOnSlash rest <;> simp

theorem splitOnSlash_no_slash (cs : List Char) (h : '/' ∉ cs) :
    splitOnSlash cs = [cs] := by
  induction cs with
  | nil => rfl
  | cons c rest ih =>
    have hc : c ≠ '/' := fun e => h (e ▸ List.mem_cons_self c rest)
    have hr : '/' ∉ rest := fun m => h (List.mem_cons_of_mem c m)
    unfold splitOnSlash
    rw [if_neg hc, ih hr]

theorem splitOnSlash_append (as bs : List Char) (h : '/' ∉ as) :
    splitOnSlash (as ++ '/' :: bs) = as :: splitOnSlash bs := by
  induction as with
  | nil => simp [splitOnSlash]
  | cons a as ih =>
    have ha : a ≠ '/' := fun e => h (e ▸ List.mem_cons_self a as)
    have hr : '/' ∉ as := fun m => h (List.mem_cons_of_mem a m)
    show splitOnSlash (a :: (as ++ '/' :: bs)) = (a :: as) :: splitOnSlash bs
    rw [show splitOnSlash (a :: (as ++ '/' :: bs)) =
        (if a = '/' then [] :: splitOnSlash (as ++ '/' :: bs)
         else match splitOnSlash (as ++ '/' :: bs) with
              | h :: t => (a :: h) :: t
              | [] => [[a]]) from rfl,
      if_neg ha, ih hr]

theorem getLastD_mem_of_ne_nil {α : Type} (l : List α) (d : α) (h : l ≠ []) :
    l.getLastD d ∈ l := by
  induction l generalizing d with
  | nil => exact absurd rfl h
  | cons a l ih =>
    cases l with
    | nil => simp
    | cons b m =>
      rw [List.getLastD_cons]
      exact List.mem_cons_of_mem a (ih a (by simp))

theorem splitOnSlash_mem_length (cs : List Char) :
    ∀ p ∈ splitOnSlash cs, p.length ≤ cs.length := by
  induction cs with
  | nil =>
    intro p hp
    simp only [splitOnSlash, List.mem_singleton] at hp
    simp [hp]
  | cons c rest ih =>
    intro p hp
    unfold splitOnSlash at hp
    by_cases h : c = '/'
    · rw [if_pos h] at hp
      rcases List.mem_cons.mp hp with h1 | h1
      · simp [h1]
      · exact le_trans (ih p h1) (by simp)
    · rw [if_neg h] at hp
      rcases hr : splitOnSlash rest with _ | ⟨hd, tl⟩
      · exact absurd hr (splitOnSlash_ne_nil rest)
      · rw [hr] at hp
        rcases List.mem_cons.mp hp with h1 | h1
        · subst h1
          have : hd.length ≤ rest.length := ih hd (hr ▸ List.mem_cons_self hd tl)
          simpa using Nat.succ_le_succ this
        · exact le_trans (ih p (hr ▸ List.mem_cons_of_mem hd h1)) (by simp)

theorem splitOnSlash_getLastD_length (cs : List Char) :
    ((splitOnSlash cs).getLastD []).length ≤ cs.length :=
  splitOnSlash_mem_length cs _
    (getLastD_mem_of_ne_nil _ _ (splitOnSlash_ne_nil cs))

theorem baseSplit_decomp (seen : Bool) (cs st ex : List Char)
    (h : baseSplit seen cs = some (st, ex)) : cs = st ++ ex := by
  induction cs generalizing seen st with
  | nil => simp [baseSplit] at h
  | cons c rest ih =>
    unfold baseSplit at h
    rcases hr : baseSplit (seen || decide (c ≠ '.')) rest with _ | ⟨st', ex'⟩
    · rw [hr] at h
      by_cases hc : c = '.' && seen
      · rw [if_pos hc] at h
        cases h
        rfl
      · rw [if_neg hc] at h
        cases h
    · rw [hr] at h
      cases h
      have := ih _ _ hr
      simp [this]

/-! ## Claim C1 — category derivation -/

/-- The four path-derived assignments of `Page.getmeta` produce a fresh
four-entry dict. -/
theorem dset_chain (a b c d : PyVal) :
    dset (dset (dset (dset [] "date" a) "title" b) "relpath" c) "category" d =
      [("date", a), ("title", b), ("relpath", c), ("category", d)] := rfl

/-- C1, counterexample: for the root-level file `content/about.md` the
extracted metadata's `category` is `"about.html"` — the page's own output
filename — not empty or absent as the claim states
(`meta["relpath"].split("/")` on a root page is the one-element list
`["about.html"]`, whose first element is taken unconditionally). -/
theorem C1_counterexample :
    (getmeta ["about.md"] "2024-01-02" ⟨[], "<p>hi</p>"⟩).map
        (fun r => dget r.1 "category") =
      .ok (some (.str "about.html")) ∧
    PyVal.str "about.html" ≠ PyVal.str "" := by
  constructor
  · rfl
  · decide

/-- The stem computed by `splitext` of a slash-free string is slash-free. -/
theorem splitext_fst_no_slash (s : String) (h : '/' ∉ s.toList) :
    '/' ∉ (splitext s).1.toList := by
  unfold splitext
  rcases hbs : baseSplit false ((splitOnSlash s.toList).getLastD []) with _ | ⟨st, ex⟩
  · simpa using h
  · simp only [List.toList_asString]
    intro hm
    exact h (List.take_subset _ _ hm)

/-- For a path of at least two segments whose first segment is slash-free,
the stem computed by `splitext` keeps the leading `first-segment ++ "/"`. -/
theorem splitext_join_cons (c s2 : String) (rest : List String)
    (hb : '/' ∉ c.toList) :
    ∃ t : List Char,
      (splitext (joinSegs (c :: s2 :: rest))).1.toList = c.toList ++ '/' :: t := by
  have hj : joinSegs (c :: s2 :: rest) = c ++ "/" ++ joinSegs (s2 :: rest) := rfl
  have hcs : (joinSegs (c :: s2 :: rest)).toList =
      c.toList ++ '/' :: (joinSegs (s2 :: rest)).toList := by
    rw [hj]
    show ((c ++ "/") ++ joinSegs (s2 :: rest)).data = _
    rw [String.data_append, String.data_append]
    simp [String.toList]
  unfold splitext
  rw [hcs, splitOnSlash_append _ _ hb, List.getLastD_cons]
  have hblen : ((splitOnSlash (joinSegs (s2 :: rest)).toList).getLastD c.toList).length ≤
      (joinSegs (s2 :: rest)).toList.length :=
    splitOnSlash_mem_length _ _
      (getLastD_mem_of_ne_nil _ _ (splitOnSlash_ne_nil _))
  rcases hbs : baseSplit false
      ((splitOnSlash (joinSegs (s2 :: rest)).toList).getLastD c.toList) with _ | ⟨st, ex⟩
  · exact ⟨(joinSegs (s2 :: rest)).toList, hcs⟩
  · have hdec := baseSplit_decomp _ _ _ _ hbs
    have hex : ex.length ≤ (joinSegs (s2 :: rest)).toList.length := by
      have : (st ++ ex).length ≤ (joinSegs (s2 :: rest)).toList.length := hdec ▸ hblen
      simp only [List.length_append] at this
      omega
    refine ⟨(joinSegs (s2 :: rest)).toList.take
      ((joinSegs (s2 :: rest)).toList.length - ex.length), ?_⟩
    simp only [List.toList_asString]
    rw [List.take_append_eq_append_take]
    have hlen : (c.toList ++ '/' :: (joinSegs (s2 :: rest)).toList).length - ex.length -
        c.toList.length = 1 + ((joinSegs (s2 :: rest)).toList.length - ex.length) := by
      simp only [List.length_append, List.length_cons]
      omega
    have hcle : c.toList.length ≤
        (c.toList ++ '/' :: (joinSegs (s2 :: rest)).toList).length - ex.length := by
      simp only [List.length_append, List.length_cons]
      omega
    rw [List.take_of_length_le hcle, hlen]
    congr 1
    rw [show 1 + ((joinSegs (s2 :: rest)).toList.length - ex.length) =
        ((joinSegs (s2 :: rest)).toList.length - ex.length) + 1 from Nat.add_comm _ _,
      List.take_succ_cons]

/-- C1 (amended): the `category` produced by the path-derivation step of
metadata extraction is the first component of `relpath.split("/")`: for a
file in a subdirectory of the content root this is the first path
segment, as the claim states, but for a file directly under the content
root it is the file's whole output filename (stem plus `".html"`), never
empty or absent. -/
theorem C1_amended (lm : String) :
    (∀ b : String, '/' ∉ b.toList → ∀ pm, pathMeta [b] lm = some pm →
      dget pm "category" = some (.str ((splitext b).1 ++ ".html")) ∧
      dget pm "relpath" = some (.str ((splitext b).1 ++ ".html"))) ∧
    (∀ c : String, '/' ∉ c.toList → ∀ s2 rest pm,
      pathMeta (c :: s2 :: rest) lm = some pm →
      dget pm "category" = some (.str c)) := by
  constructor
  · intro b hb pm hpm
    have hjb : joinSegs [b] = b := rfl
    simp only [pathMeta, hjb] at hpm
    split at hpm
    · exact Option.noConfusion hpm
    · next g1 g2 heq =>
      obtain rfl : _ = pm := Option.some.inj hpm
      have hhtml : '/' ∉ ((splitext b).1 ++ ".html").toList := by
        intro hm
        rw [show ((splitext b).1 ++ ".html").toList =
            (splitext b).1.toList ++ ".html".toList from String.data_append _ _] at hm
        rcases List.mem_append.mp hm with hm | hm
        · exact splitext_fst_no_slash b hb hm
        · exact absurd hm (by decide)
      have hpaths : (splitOnSlash ((splitext b).1 ++ ".html").toList).map List.asString =
          [(splitext b).1 ++ ".html"] := by
        rw [splitOnSlash_no_slash _ hhtml, List.map_singleton, String.asString_toList]
      rw [hpaths]
      refine ⟨?_, ?_⟩
      · rw [dget_dset_self]
        simp
      · rw [dget_dset_ne _ _ _ _ (by decide), dget_dset_self]
  · intro c hb s2 rest pm hpm
    simp only [pathMeta] at hpm
    split at hpm
    · exact Option.noConfusion hpm
    · next g1 g2 heq =>
      obtain rfl : _ = pm := Option.some.inj hpm
      obtain ⟨t, ht⟩ := splitext_join_cons c s2 rest hb
      have hrel : ((splitext (joinSegs (c :: s2 :: rest))).1 ++ ".html").toList =
          c.toList ++ '/' :: (t ++ ".html".toList) := by
        rw [show ((splitext (joinSegs (c :: s2 :: rest))).1 ++ ".html").toList =
            (splitext (joinSegs (c :: s2 :: rest))).1.toList ++ ".html".toList from
            String.data_append _ _, ht]
        simp
      rw [hrel, splitOnSlash_append _ _ hb]
      rw [dget_dset_self]
      simp only [List.map_cons, List.length_cons, List.getD_cons_zero]
      rw [if_pos (Nat.succ_pos _)]
      exact congrArg (fun s => some (PyVal.str s)) (String.asString_toList c)

/-- Witness for `C1_amended` at `content/about.md` and
`content/blog/post.md`. -/
theorem C1_amended_witness :
    dget ((pathMeta ["about.md"] "2024-01-02").getD []) "category" =
      some (.str ((splitext "about.md").1 ++ ".html")) ∧
    dget ((pathMeta ["blog", "post.md"] "2024-01-02").getD []) "category" =
      some (.str "blog") :=
  ⟨((C1_amended "2024-01-02").1 "about.md" (by decide) _ rfl).1,
   (C1_amended "2024-01-02").2 "blog" (by decide) "post.md" [] _ rfl⟩

/-! ## Claim C5 — date prefix and title from the basename -/

theorem dateShape_length (cs : List Char) (h : dateShape cs = true) :
    cs.length = 10 := by
  unfold dateShape at h
  split at h
  · simp
  · exact absurd h (by simp)

/-- The regex result when the stem starts with a well-shaped
`YYYY-MM-DD-` followed by a nonempty newline-free remainder. -/
theorem reSearchDT_with_date (s : String) (dcs rcs : List Char)
    (hshape : dateShape dcs = true) (hne : rcs ≠ []) (hnl : '\n' ∉ rcs)
    (hsplit : s.toList = dcs ++ '-' :: rcs) :
    reSearchDT s = some (some dcs.asString, rcs.asString) := by
  have hlen := dateShape_length dcs hshape
  have htake : s.toList.take 10 = dcs := by
    rw [hsplit, List.take_append_eq_append_take, ← hlen, List.take_length,
      Nat.sub_self, List.take_zero, List.append_nil]
  have hgetD : s.toList.getD 10 ' ' = '-' := by
    rw [hsplit, List.getD_eq_getElem?_getD,
      List.getElem?_append_right (le_of_eq hlen), hlen, Nat.sub_self]
    simp
  have hdrop : s.toList.drop 11 = rcs := by
    rw [hsplit, List.drop_append_eq_append_drop,
      List.drop_eq_nil_of_le (by omega), List.nil_append, hlen]
    rfl
  have hdpd : dotPlusDollar rcs = some rcs := by
    unfold dotPlusDollar
    have hc : rcs.contains '\n' = false := by
      rw [← Bool.not_eq_true]
      intro hcc
      exact hnl (List.elem_iff.mp hcc)
    have h0 : rcs.isEmpty = false := by
      cases hh : rcs
      · exact absurd hh hne
      · rfl
    rw [hc, h0]
    simp
  simp only [reSearchDT]
  rw [htake, hshape, hgetD, hdrop, hdpd]
  simp

/-- The regex result when the stem does not start with a date prefix:
the whole (nonempty, newline-free) stem is the title group. -/
theorem reSearchDT_no_date (s : String)
    (hne : s.toList ≠ []) (hnl : '\n' ∉ s.toList)
    (hnp : dateShape (s.toList.take 10) = false ∨ s.toList.getD 10 ' ' ≠ '-') :
    reSearchDT s = some (none, s.toList.asString) := by
  have hdpd : dotPlusDollar s.toList = some s.toList := by
    unfold dotPlusDollar
    have hc : s.toList.contains '\n' = false := by
      rw [← Bool.not_eq_true]
      intro hcc
      exact hnl (List.elem_iff.mp hcc)
    have h0 : s.toList.isEmpty = false := by
      cases hh : s.toList
      · exact absurd hh hne
      · rfl
    rw [hc, h0]
    simp
  have hcond : (dateShape (s.toList.take 10) &&
      decide (s.toList.getD 10 ' ' = '-')) = false := by
    rcases hnp with h | h
    · rw [h, Bool.false_and]
    · have hd : decide (s.toList.getD 10 ' ' = '-') = false := decide_eq_false h
      rw [hd, Bool.and_false]
  simp only [reSearchDT]
  rw [hcond]
  simp only [Bool.false_eq_true, if_false]
  rw [hdpd]
  rfl

/-- The path-derived metadata always consists of exactly the four keys
`date`, `title`, `relpath`, `category`, in that order, with string
values. -/
theorem pathMeta_shape (segs : List String) (lm : String) (pm : PageMeta)
    (h : pathMeta segs lm = some pm) :
    ∃ a b c d, pm =
      [("date", .str a), ("title", .str b), ("relpath", .str c),
       ("category", .str d)] := by
  simp only [pathMeta] at h
  split at h
  · exact Option.noConfusion h
  · next g1 g2 heq =>
    obtain rfl : _ = pm := Option.some.inj h
    exact ⟨_, _, _, _, rfl⟩

/-- C5 (confirmed): when the basename's stem is an optional
`YYYY-MM-DD-` prefix followed by a remainder, metadata extraction sets
`date` to the prefix and `title` to the remainder; when the stem has no
date prefix, `date` is the file's formatted mtime and `title` is the
whole stem. -/
theorem C5_date_title (segs : List String) (lm : String) :
    (∀ dcs rcs : List Char, dateShape dcs = true → rcs ≠ [] → '\n' ∉ rcs →
      (splitext (segs.getLastD "")).1.toList = dcs ++ '-' :: rcs →
      ∀ pm, pathMeta segs lm = some pm →
        dget pm "date" = some (.str dcs.asString) ∧
        dget pm "title" = some (.str rcs.asString)) ∧
    ((splitext (segs.getLastD "")).1.toList ≠ [] →
      '\n' ∉ (splitext (segs.getLastD "")).1.toList →
      (dateShape ((splitext (segs.getLastD "")).1.toList.take 10) = false ∨
        (splitext (segs.getLastD "")).1.toList.getD 10 ' ' ≠ '-') →
      ∀ pm, pathMeta segs lm = some pm →
        dget pm "date" = some (.str lm) ∧
        dget pm "title" = some (.str (splitext (segs.getLastD "")).1)) := by
  constructor
  · intro dcs rcs hshape hne hnl hsplit pm hpm
    simp only [pathMeta,
      reSearchDT_with_date _ dcs rcs hshape hne hnl hsplit] at hpm
    obtain rfl : _ = pm := Option.some.inj hpm
    constructor
    · rw [dget_dset_ne _ _ _ _ (by decide), dget_dset_ne _ _ _ _ (by decide),
        dget_dset_ne _ _ _ _ (by decide), dget_dset_self]
      rfl
    · rw [dget_dset_ne _ _ _ _ (by decide), dget_dset_ne _ _ _ _ (by decide),
        dget_dset_self]
  · intro hne hnl hnp pm hpm
    simp only [pathMeta, reSearchDT_no_date _ hne hnl hnp] at hpm
    obtain rfl : _ = pm := Option.some.inj hpm
    constructor
    · rw [dget_dset_ne _ _ _ _ (by decide), dget_dset_ne _ _ _ _ (by decide),
        dget_dset_ne _ _ _ _ (by decide), dget_dset_self]
      rfl
    · rw [dget_dset_ne _ _ _ _ (by decide), dget_dset_ne _ _ _ _ (by decide),
        dget_dset_self, String.asString_toList]

/-! ### Per-file lemmas about `processFile` -/

/-- A file routed to conversion whose `Page` construction raises is
caught, logged and skipped: the state only gains the log line. -/
theorem processFile_drop (g : PageMeta) (extMap : List String) (st : BuildState)
    (f : SrcFile)
    (hroute : (splitext (srcPath f.segs)).2 = "" ∨
      is_pandoc extMap (srcPath f.segs) = true)
    (hfail : (pageOf f).isOk = false) :
    processFile g extMap st f =
      .ok { st with logs := st.logs ++ ["unable to parse " ++ srcPath f.segs] } := by
  have hcond : ((splitext (srcPath f.segs)).2 ≠ "" &&
      !is_pandoc extMap (srcPath f.segs)) = false := by
    rcases hroute with h | h
    · simp [h]
    · simp [h]
  cases hp : pageOf f with
  | ok v =>
    rw [hp] at hfail
    simp [Except.isOk, Except.toBool] at hfail
  | error e =>
    simp only [processFile, hcond, Bool.false_eq_true, if_false, hp]

/-- Any successful `processFile` step only appends to the written-pages
list and to the log. -/
theorem processFile_ok_extends (g : PageMeta) (extMap : List String)
    (st : BuildState) (f : SrcFile) (st' : BuildState)
    (h : processFile g extMap st f = .ok st') :
    (∃ t, st'.written = st.written ++ t) ∧ (∃ t, st'.logs = st.logs ++ t) := by
  simp only [processFile] at h
  split at h
  · obtain rfl : _ = st' := Except.ok.inj h
    exact ⟨⟨[], by simp⟩, ⟨[], by simp⟩⟩
  · split at h
    · obtain rfl : _ = st' := Except.ok.inj h
      exact ⟨⟨[], by simp⟩, ⟨_, rfl⟩⟩
    · split at h
      · exact Except.noConfusion h
      · split at h
        · obtain rfl : _ = st' := Except.ok.inj h
          exact ⟨⟨_, rfl⟩, ⟨_, rfl⟩⟩
        · split at h
          · obtain rfl : _ = st' := Except.ok.inj h
            exact ⟨⟨_, rfl⟩, ⟨_, rfl⟩⟩
          · exact Except.noConfusion h

/-- A file routed to conversion whose `Page` construction succeeds, when
the step does not abort the build, appends exactly one written page whose
destination is the metadata's `relpath`. -/
theorem processFile_page_written (g : PageMeta) (extMap : List String)
    (st : BuildState) (f : SrcFile) (doc : PandocDoc) (m : PageMeta)
    (plogs : List String)
    (hroute : (splitext (srcPath f.segs)).2 = "" ∨
      is_pandoc extMap (srcPath f.segs) = true)
    (hpage : pageOf f = .ok (doc, m, plogs))
    (hok : (processFile g extMap st f).isOk = true) :
    ∃ st' wp, processFile g extMap st f = .ok st' ∧
      st'.written = st.written ++ [wp] ∧
      wp.relpath = pyStr ((dget m "relpath").getD (.str "")) := by
  have hcond : ((splitext (srcPath f.segs)).2 ≠ "" &&
      !is_pandoc extMap (srcPath f.segs)) = false := by
    rcases hroute with h | h
    · simp [h]
    · simp [h]
  simp only [processFile, hcond, Bool.false_eq_true, if_false, hpage] at hok ⊢
  split at hok
  · simp [Except.isOk, Except.toBool] at hok
  · next ctx hctx =>
    by_cases hlen : f.segs.length = 1
    · rw [if_pos hlen]
      exact ⟨_, _, rfl, rfl, rfl⟩
    · rw [if_neg hlen] at hok ⊢
      split at hok
      · next cat hcat =>
        exact ⟨_, _, rfl, rfl, rfl⟩
      · simp [Except.isOk, Except.toBool] at hok

/-- The `create_pages` fold from any start state, over files none of
which aborts the build: the run succeeds, state only grows, every
conversion failure is logged, and every successfully parsed page's
`relpath` is among the written pages. -/
theorem createFrom_spec (g : PageMeta) (extMap : List String) :
    ∀ (files : List SrcFile) (st : BuildState),
    (∀ f ∈ files, ∀ s, (processFile g extMap s f).isOk = true) →
    ∃ br, files.foldlM (processFile g extMap) st = .ok br ∧
      (∃ t, br.written = st.written ++ t) ∧
      (∃ t, br.logs = st.logs ++ t) ∧
      (∀ f ∈ files,
        ((splitext (srcPath f.segs)).2 = "" ∨
          is_pandoc extMap (srcPath f.segs) = true) →
        (pageOf f).isOk = false →
        ("unable to parse " ++ srcPath f.segs) ∈ br.logs) ∧
      (∀ f ∈ files,
        ((splitext (srcPath f.segs)).2 = "" ∨
          is_pandoc extMap (srcPath f.segs) = true) →
        ∀ doc m plogs, pageOf f = .ok (doc, m, plogs) →
        pyStr ((dget m "relpath").getD (.str "")) ∈
          br.written.map WrittenPage.relpath) := by
  intro files
  induction files with
  | nil =>
    intro st _
    exact ⟨st, rfl, ⟨[], by simp⟩, ⟨[], by simp⟩, by simp, by simp⟩
  | cons f0 fs ih =>
    intro st hsafe
    have h0 := hsafe f0 (List.mem_cons_self f0 fs) st
    cases hp0 : processFile g extMap st f0 with
    | error e =>
      rw [hp0] at h0
      simp [Except.isOk, Except.toBool] at h0
    | ok st1 =>
      obtain ⟨br, hbr, ⟨tw, htw⟩, ⟨tl, htl⟩, hlog, hwr⟩ :=
        ih st1 (fun f hf s => hsafe f (List.mem_cons_of_mem f0 hf) s)
      obtain ⟨⟨uw, huw⟩, ⟨ul, hul⟩⟩ :=
        processFile_ok_extends g extMap st f0 st1 hp0
      refine ⟨br, ?_, ?_, ?_, ?_, ?_⟩
      · rw [List.foldlM_cons, hp0]
        exact hbr
      · exact ⟨uw ++ tw, by rw [htw, huw, List.append_assoc]⟩
      · exact ⟨ul ++ tl, by rw [htl, hul, List.append_assoc]⟩
      · intro f hf hroute hfail
        rcases List.mem_cons.mp hf with rfl | hf
        · have hdrop := processFile_drop g extMap st f hroute hfail
          have : st1 = { st with
              logs := st.logs ++ ["unable to parse " ++ srcPath f.segs] } :=
            Except.ok.inj (hp0.symm.trans hdrop)
          rw [htl, this]
          exact List.mem_append_left _
            (List.mem_append_right _ (List.mem_singleton.mpr rfl))
        · exact hlog f hf hroute hfail
      · intro f hf hroute doc m plogs hpage
        rcases List.mem_cons.mp hf with rfl | hf
        · obtain ⟨st', wp, hst', hw, hrel⟩ :=
            processFile_page_written g extMap st f doc m plogs hroute hpage
              (by rw [hp0]; rfl)
          have : st1 = st' := Except.ok.inj (hp0.symm.trans hst')
          rw [htw, this, hw, ← hrel]
          simp
        · exact hwr f hf hroute doc m plogs hpage

/-! ## Claim C3 — fault isolation -/

/-- C3, counterexample: in a run where one file fails document
conversion, another (well-formed) file whose front matter happens to
define a `content` key hits the uncaught duplicate-keyword `TypeError`
at line 81; the whole build aborts, so that other file produces no
output page and the process exit code is not 0. -/
theorem C3_counterexample :
    (pageOf ⟨["blog", "a.md"], "2024-01-02", .error "pandoc failed"⟩).isOk =
      false ∧
    create_pages [("site_url", .str "http://localhost:8000/")] [".md"]
      [⟨["blog", "a.md"], "2024-01-02", .error "pandoc failed"⟩,
       ⟨["blog", "b.md"], "2024-01-02",
         .ok ⟨[("content", .metaInlines "boom")], "<p>b</p>"⟩⟩] =
    .error "TypeError: got multiple values for keyword argument content" := by
  constructor
  · rfl
  · rfl

/-- C3 (amended): in every run in which no page's metadata collides with
the reserved `content` context key (so no per-file step aborts the
build), the run succeeds (exit code 0), every file routed to conversion
whose `Page` construction fails is logged with its path and contributes
nothing but that log line — it is neither written nor indexed — and every
file whose `Page` construction succeeds has its output page written. -/
theorem C3_amended (g : PageMeta) (extMap : List String) (files : List SrcFile)
    (hsafe : ∀ f ∈ files, ∀ s, (processFile g extMap s f).isOk = true) :
    ∃ br, create_pages g extMap files = .ok br ∧
      (∀ f ∈ files,
        ((splitext (srcPath f.segs)).2 = "" ∨
          is_pandoc extMap (srcPath f.segs) = true) →
        (pageOf f).isOk = false →
        ("unable to parse " ++ srcPath f.segs) ∈ br.logs) ∧
      (∀ f ∈ files,
        ((splitext (srcPath f.segs)).2 = "" ∨
          is_pandoc extMap (srcPath f.segs) = true) →
        ∀ doc m plogs, pageOf f = .ok (doc, m, plogs) →
        pyStr ((dget m "relpath").getD (.str "")) ∈
          br.written.map WrittenPage.relpath) ∧
      (∀ (st : BuildState) (f : SrcFile),
        ((splitext (srcPath f.segs)).2 = "" ∨
          is_pandoc extMap (srcPath f.segs) = true) →
        (pageOf f).isOk = false →
        processFile g extMap st f =
          .ok { st with
                logs := st.logs ++ ["unable to parse " ++ srcPath f.segs] }) := by
  obtain ⟨br, hbr, _, _, hlog, hwr⟩ := createFrom_spec g extMap files initState hsafe
  exact ⟨br, hbr, hlog, hwr,
    fun st f hroute hfail => processFile_drop g extMap st f hroute hfail⟩

/-- Witness for `C3_amended`: one malformed document among two valid
ones — the run still succeeds, the failure is logged, and both valid
pages are written. -/
theorem C3_amended_witness :
    ∃ br, create_pages [] [".md"]
      [⟨["blog", "2024-01-01-a.md"], "2024-01-02", .ok ⟨[], "<p>a</p>"⟩⟩,
       ⟨["blog", "bad.md"], "2024-01-02", .error "pandoc failed"⟩,
       ⟨["blog", "2024-02-01-c.md"], "2024-01-02", .ok ⟨[], "<p>c</p>"⟩⟩] =
      .ok br ∧
      (∀ f ∈ [(⟨["blog", "2024-01-01-a.md"], "2024-01-02",
            .ok ⟨[], "<p>a</p>"⟩⟩ : SrcFile),
          ⟨["blog", "bad.md"], "2024-01-02", .error "pandoc failed"⟩,
          ⟨["blog", "2024-02-01-c.md"], "2024-01-02", .ok ⟨[], "<p>c</p>"⟩⟩],
        ((splitext (srcPath f.segs)).2 = "" ∨
          is_pandoc [".md"] (srcPath f.segs) = true) →
        (pageOf f).isOk = false →
        ("unable to parse " ++ srcPath f.segs) ∈ br.logs) ∧
      (∀ f ∈ [(⟨["blog", "2024-01-01-a.md"], "2024-01-02",
            .ok ⟨[], "<p>a</p>"⟩⟩ : SrcFile),
          ⟨["blog", "bad.md"], "2024-01-02", .error "pandoc failed"⟩,
          ⟨["blog", "2024-02-01-c.md"], "2024-01-02", .ok ⟨[], "<p>c</p>"⟩⟩],
        ((splitext (srcPath f.segs)).2 = "" ∨
          is_pandoc [".md"] (srcPath f.segs) = true) →
        ∀ doc m plogs, pageOf f = .ok (doc, m, plogs) →
        pyStr ((dget m "relpath").getD (.str "")) ∈
          br.written.map WrittenPage.relpath) ∧
      (∀ (st : BuildState) (f : SrcFile),
        ((splitext (srcPath f.segs)).2 = "" ∨
          is_pandoc [".md"] (srcPath f.segs) = true) →
        (pageOf f).isOk = false →
        processFile [] [".md"] st f =
          .ok { st with
                logs := st.logs ++ ["unable to parse " ++ srcPath f.segs] }) :=
  C3_amended [] [".md"]
    [⟨["blog", "2024-01-01-a.md"], "2024-01-02", .ok ⟨[], "<p>a</p>"⟩⟩,
     ⟨["blog", "bad.md"], "2024-01-02", .error "pandoc failed"⟩,
     ⟨["blog", "2024-02-01-c.md"], "2024-01-02", .ok ⟨[], "<p>c</p>"⟩⟩]
    (by
      intro f hf s
      simp only [List.mem_cons, List.not_mem_nil, or_false] at hf
      rcases hf with rfl | rfl | rfl <;> rfl)

/-! ## Claim C9 — rendering context -/

/-- C9 (confirmed): whenever a rendering context is built for a page
(line 81, `dict(self.gcontext, content=XML(html), **page.meta)`), it is
the union of the global parameters, the page metadata and the `content`
entry holding the html serialization, and on every key the page
metadata's value takes precedence over the global parameters. -/
theorem C9_context (g : PageMeta) (html : String) (m ctx : PageMeta)
    (hnd : (m.map Prod.fst).Nodup)
    (h : mkContext g html m = .ok ctx) :
    (∀ k v, dget m k = some v → dget ctx k = some v) ∧
    dget ctx "content" = some (.str html) ∧
    (∀ k, dget m k = none → k ≠ "content" → dget ctx k = dget g k) := by
  unfold mkContext at h
  by_cases hc : m.any (fun p => p.1 = "content")
  · rw [if_pos hc] at h
    exact Except.noConfusion h
  · rw [if_neg hc] at h
    obtain rfl : _ = ctx := Except.ok.inj h
    have hmc : dget m "content" = none := by
      have : List.find? (fun p => p.1 = "content") m = none := by
        rw [List.find?_eq_none]
        intro x hx hpx
        exact hc (List.any_eq_true.mpr ⟨x, hx, hpx⟩)
      simp [dget, this]
    refine ⟨?_, ?_, ?_⟩
    · intro k v hv
      exact dget_dupdate_of_some _ _ _ _ hnd hv
    · rw [dget_dupdate_of_none _ _ _ hmc, dget_dset_self]
    · intro k hk hkc
      rw [dget_dupdate_of_none _ _ _ hk, dget_dset_ne _ _ _ _ hkc]

/-- Witness for `C9_context` at a concrete global context, html text and
page metadata sharing the key `author`: the metadata's `author` wins, the
`content` entry holds the html text, and the untouched `site_url` comes
from the global context. -/
theorem C9_context_witness :
    dget (dupdate (dset [("author", PyVal.str "global"),
        ("site_url", .str "http://localhost:8000/")] "content" (.str "<p>x</p>"))
      [("author", PyVal.str "page"), ("date", .str "2024-03-01")]) "author" =
      some (.str "page") ∧
    dget (dupdate (dset [("author", PyVal.str "global"),
        ("site_url", .str "http://localhost:8000/")] "content" (.str "<p>x</p>"))
      [("author", PyVal.str "page"), ("date", .str "2024-03-01")]) "content" =
      some (.str "<p>x</p>") ∧
    dget (dupdate (dset [("author", PyVal.str "global"),
        ("site_url", .str "http://localhost:8000/")] "content" (.str "<p>x</p>"))
      [("author", PyVal.str "page"), ("date", .str "2024-03-01")]) "site_url" =
      dget [("author", PyVal.str "global"),
        ("site_url", .str "http://localhost:8000/")] "site_url" :=
  ⟨(C9_context [("author", PyVal.str "global"),
        ("site_url", .str "http://localhost:8000/")] "<p>x</p>"
      [("author", PyVal.str "page"), ("date", .str "2024-03-01")] _
      (by decide) rfl).1 "author" (.str "page") rfl,
   (C9_context [("author", PyVal.str "global"),
        ("site_url", .str "http://localhost:8000/")] "<p>x</p>"
      [("author", PyVal.str "page"), ("date", .str "2024-03-01")] _
      (by decide) rfl).2.1,
   (C9_context [("author", PyVal.str "global"),
        ("site_url", .str "http://localhost:8000/")] "<p>x</p>"
      [("author", PyVal.str "page"), ("date", .str "2024-03-01")] _
      (by decide) rfl).2.2 "site_url" rfl (by decide)⟩

/-! ## Claim C6 — rfc_2822_date -/

/-- C6 (confirmed): `rfc_2822_date` is computed deterministically from the
page's final `date` value by `strptime("%Y-%m-%d")` followed by
reformatting — in particular `"2024-03-01"` gives
`"Fri, 01 Mar 2024 00:00:00 +0000"` — and whenever metadata extraction
succeeds, `rfc_2822_date` is exactly `rfc2822OfDate` of the final `date`;
a file whose date is malformed makes `Page` construction raise, which
`Site.create_pages` catches, logging the file and skipping only it. -/
theorem C6_rfc2822 :
    rfc2822OfDate "2024-03-01" = some "Fri, 01 Mar 2024 00:00:00 +0000" ∧
    (∀ (segs : List String) (lm : String) (doc : PandocDoc) (m : PageMeta)
        (logs : List String), getmeta segs lm doc = .ok (m, logs) →
      ∃ d r, dget m "date" = some (.str d) ∧ rfc2822OfDate d = some r ∧
        dget m "rfc_2822_date" = some (.str r)) ∧
    (∀ (g : PageMeta) (extMap : List String) (st : BuildState) (f : SrcFile),
      ((splitext (srcPath f.segs)).2 = "" ∨ is_pandoc extMap (srcPath f.segs) = true) →
      (pageOf f).isOk = false →
      processFile g extMap st f =
        .ok { st with logs := st.logs ++ ["unable to parse " ++ srcPath f.segs] }) := by
  refine ⟨by decide, ?_, ?_⟩
  · intro segs lm doc m logs h
    simp only [getmeta] at h
    split at h
    · exact Except.noConfusion h
    · next pm heq =>
      rcases hdm : meta2dictEntries doc.docMeta with e | dm
      all_goals rw [hdm] at h
      all_goals
        split at h
        case _ d hd =>
          split at h
          case _ r hr =>
            injection h with h2
            injection h2 with hm hlogs
            subst hm
            refine ⟨d, r, ?_, hr, ?_⟩
            · rw [dget_dsetdefault_ne _ _ _ _ (by decide),
                dget_dset_ne _ _ _ _ (by decide)]
              exact hd
            · rw [dget_dsetdefault_ne _ _ _ _ (by decide), dget_dset_self]
          case _ => exact Except.noConfusion h
        case _ => exact Except.noConfusion h
  · intro g extMap st f hroute hfail
    have hcond : ((splitext (srcPath f.segs)).2 ≠ "" &&
        !is_pandoc extMap (srcPath f.segs)) = false := by
      rcases hroute with h | h
      · simp [h]
      · simp [h]
    cases hp : pageOf f with
    | ok v =>
      rw [hp] at hfail
      simp [Except.isOk, Except.toBool] at hfail
    | error e =>
      simp only [processFile, hcond, Bool.false_eq_true, if_false, hp]

/-- Witness for `C6_rfc2822`: the extraction conjunct at a concrete
successful page, and the drop conjunct at a file whose filename date
`9999-99-99` makes `strptime` raise. -/
theorem C6_rfc2822_witness :
    (∃ d r,
      dget [("date", PyVal.str "2023-12-31"), ("title", .str "hello"),
        ("relpath", .str "hello.html"), ("category", .str "hello.html"),
        ("rfc_2822_date", .str "Sun, 31 Dec 2023 00:00:00 +0000"),
        ("summary", .str "")] "date" = some (.str d) ∧
      rfc2822OfDate d = some r ∧
      dget [("date", PyVal.str "2023-12-31"), ("title", .str "hello"),
        ("relpath", .str "hello.html"), ("category", .str "hello.html"),
        ("rfc_2822_date", .str "Sun, 31 Dec 2023 00:00:00 +0000"),
        ("summary", .str "")] "rfc_2822_date" = some (.str r)) ∧
    processFile [] [".md"] initState
        ⟨["blog", "9999-99-99-x.md"], "2024-01-02", .ok ⟨[], ""⟩⟩ =
      .ok { initState with
            logs := ["unable to parse content/blog/9999-99-99-x.md"] } :=
  ⟨C6_rfc2822.2.1 ["hello.md"] "2023-12-31" ⟨[], ""⟩ _ [] rfl,
   C6_rfc2822.2.2 [] [".md"] initState
     ⟨["blog", "9999-99-99-x.md"], "2024-01-02", .ok ⟨[], ""⟩⟩
     (Or.inr (by decide)) (by decide)⟩

/-! ## Claim C2 — unrecognized front-matter node kinds -/

/-- C2, counterexample: a page whose front-matter tree contains an
unrecognized node kind raises inside `meta2dict`, but the exception is
caught inside `getmeta` (lines 171-175), so — contrary to the claim —
the page is not dropped: its output page is written, its metadata is
added to its category index, and only a log line records the failure. -/
theorem C2_counterexample :
    meta2dictEntries [("k", MetaNode.unknownNode)] =
      .error "Metadata type not found" ∧
    (create_pages [("site_url", .str "http://localhost:8000/")] [".md"]
        [⟨["blog", "x.md"], "2024-01-02",
          .ok ⟨[("k", MetaNode.unknownNode)], "<p>x</p>"⟩⟩]).map
      (fun br => (br.written.map (fun w => w.relpath),
                  br.cat2metas.map Prod.fst, br.logs)) =
    .ok (["blog/x.html"], ["blog"],
         ["unable to decode metadata for content/blog/x.md"]) := by
  constructor
  · rfl
  · rfl

/-- C2 (amended): when the front-matter tree contains a node kind outside
the recognized set, `meta2dict` raises, the failure is caught inside
`getmeta` and logged, and the page continues with only its path-derived
metadata (plus `rfc_2822_date` and the `summary` default): it is still
written through the post layout and still indexed under its category,
and the build continues. -/
theorem C2_amended (segs : List String) (lm : String) (doc : PandocDoc)
    (pm : PageMeta) (d r e : String)
    (hpm : pathMeta segs lm = some pm)
    (herr : meta2dictEntries doc.docMeta = .error e)
    (hd : dget pm "date" = some (.str d))
    (hr : rfc2822OfDate d = some r) :
    getmeta segs lm doc =
      .ok (dsetdefault (dset pm "rfc_2822_date" (.str r)) "summary" (.str ""),
           ["unable to decode metadata for " ++ srcPath segs]) ∧
    (∀ (g : PageMeta) (extMap : List String) (st : BuildState) (f : SrcFile),
      f.segs = segs → f.lastModified = lm → f.readDoc = .ok doc →
      ((splitext (srcPath segs)).2 = "" ∨ is_pandoc extMap (srcPath segs) = true) →
      2 ≤ segs.length →
      ∃ cat ctx,
        dget (dsetdefault (dset pm "rfc_2822_date" (.str r)) "summary" (.str ""))
          "category" = some (.str cat) ∧
        processFile g extMap st f =
          .ok { st with
                written := st.written ++
                  [⟨pyStr ((dget (dsetdefault (dset pm "rfc_2822_date" (.str r))
                      "summary" (.str "")) "relpath").getD (.str "")),
                    .postLayout, ctx⟩],
                cat2metas := catAppend st.cat2metas cat
                  (dsetdefault (dset pm "rfc_2822_date" (.str r)) "summary" (.str "")),
                logs := st.logs ++
                  ["unable to decode metadata for " ++ srcPath segs] }) := by
  obtain ⟨a, b, c, dd, rfl⟩ := pathMeta_shape segs lm pm hpm
  obtain rfl : d = a := (PyVal.str.inj (Option.some.inj hd)).symm
  have h1 : getmeta segs lm doc =
      .ok (dsetdefault (dset
          [("date", .str d), ("title", .str b), ("relpath", .str c),
           ("category", .str dd)] "rfc_2822_date" (.str r)) "summary" (.str ""),
        ["unable to decode metadata for " ++ srcPath segs]) := by
    simp only [getmeta, hpm, herr]
    rw [show dget [("date", PyVal.str d), ("title", .str b), ("relpath", .str c),
        ("category", .str dd)] "date" = some (.str d) from rfl]
    simp only [hr]
  refine ⟨h1, ?_⟩
  intro g extMap st f hsegs hlm hread hroute hlen2
  have hcond : ((splitext (srcPath segs)).2 ≠ "" &&
      !is_pandoc extMap (srcPath segs)) = false := by
    rcases hroute with h | h
    · simp [h]
    · simp [h]
  have hpage : pageOf f = .ok (doc,
      dsetdefault (dset
        [("date", .str d), ("title", .str b), ("relpath", .str c),
         ("category", .str dd)] "rfc_2822_date" (.str r)) "summary" (.str ""),
      ["unable to decode metadata for " ++ srcPath segs]) := by
    have hstep : pageOf f = (match getmeta segs lm doc with
      | .error e => .error e
      | .ok (m, logs) => .ok (doc, m, logs)) := by
      unfold pageOf
      rw [hread, hsegs, hlm]
    rw [hstep, h1]
  have hnot1 : ¬ segs.length = 1 := by omega
  refine ⟨dd, dupdate (dset g "content" (.str doc.html))
    (dsetdefault (dset
      [("date", .str d), ("title", .str b), ("relpath", .str c),
       ("category", .str dd)] "rfc_2822_date" (.str r)) "summary" (.str "")),
    rfl, ?_⟩
  simp only [processFile, hsegs, hlm, hpage, hcond, Bool.false_eq_true,
    if_false, if_neg hnot1]
  rfl

/-- Witness for `C2_amended`: the page of `C2_counterexample`. -/
theorem C2_amended_witness :
    getmeta ["blog", "x.md"] "2024-01-02" ⟨[("k", MetaNode.unknownNode)], "<p>x</p>"⟩ =
      .ok (dsetdefault (dset ((pathMeta ["blog", "x.md"] "2024-01-02").getD [])
          "rfc_2822_date" (.str "Tue, 02 Jan 2024 00:00:00 +0000"))
          "summary" (.str ""),
        ["unable to decode metadata for content/blog/x.md"]) :=
  (C2_amended ["blog", "x.md"] "2024-01-02"
    ⟨[("k", MetaNode.unknownNode)], "<p>x</p>"⟩ _ "2024-01-02"
    "Tue, 02 Jan 2024 00:00:00 +0000" "Metadata type not found"
    rfl rfl rfl (by decide)).1

/-! ## Claim C4 — copy-vs-convert routing -/

/-- When every later occurrence of `content/` is absent from the
relative path, `str.replace` leaves it untouched. -/
theorem replaceContent_eq_self (l : List Char)
    (h : ¬ List.IsInfix "content/".toList l) : replaceContent l = l := by
  induction l with
  | nil => rfl
  | cons c rest ih =>
    rw [replaceContent.eq_def]
    split
    · next rest1 heq =>
      exact absurd ⟨[], rest1, by rw [heq]; rfl⟩ h
    · next a b hne heq =>
      obtain ⟨rfl, rfl⟩ : c = a ∧ rest = b := by
        injection heq with h1 h2
        exact ⟨h1, h2⟩
      rw [ih (fun hi => h (List.infix_cons hi))]
    · next heq =>
      simp at heq

/-- C4, counterexample, two divergences from the claim.
First, the file `content/noext` has no extension, and the empty
extension is not in the converter's mapping, so the claim says it must
be copied verbatim and never converted; but `os.path.splitext(src)[-1]`
is falsy for it, so the code routes it to conversion: nothing is copied
and a converted page `noext.html` is written.
Second, the copy destination is not always the mirrored output path:
`str.replace` substitutes every occurrence of `content/`, so
`content/subcontent/img.png` is copied to `_site/sub_site/img.png`, not
to the mirrored `_site/subcontent/img.png`. -/
theorem C4_counterexample :
    [".md"].contains (splitext "content/noext").2 = false ∧
    (create_pages [] [".md"]
        [⟨["noext"], "2024-01-02", .ok ⟨[], "<p>x</p>"⟩⟩]).map
      (fun br => (br.copied, br.written.map (fun w => w.relpath))) =
    .ok ([], ["noext.html"]) ∧
    (create_pages [] [".md"]
        [⟨["subcontent", "img.png"], "2024-01-02", .error "unused"⟩]).map
      (fun br => br.copied) = .ok ["_site/sub_site/img.png"] ∧
    "_site/sub_site/img.png" ≠ "_site/" ++ joinSegs ["subcontent", "img.png"] := by
  refine ⟨by decide, rfl, rfl, by decide⟩

/-- C4 (amended): a discovered file is copied verbatim iff its extension
is non-empty AND not in the converter's extension mapping — so a file
whose non-empty extension is unknown to the converter is copied, but a
file with no extension is routed to conversion, never copied.  The copy
destination is `src.replace("content/", "_site/")`, which is the
mirrored output path `_site/<relative path>` whenever `content/` does
not occur again inside the relative path (a directory whose name ends in
`content` breaks the mirroring, as the counterexample shows). -/
theorem C4_amended (g : PageMeta) (extMap : List String) (st : BuildState)
    (f : SrcFile) :
    ((splitext (srcPath f.segs)).2 ≠ "" → (splitext (srcPath f.segs)).2 ∉ extMap →
      processFile g extMap st f =
        .ok { st with copied := st.copied ++ [dstPath f.segs] }) ∧
    (¬ List.IsInfix "content/".toList (joinSegs f.segs).toList →
      dstPath f.segs = "_site/" ++ joinSegs f.segs) ∧
    (((splitext (srcPath f.segs)).2 = "" ∨ (splitext (srcPath f.segs)).2 ∈ extMap) →
      ∀ st', processFile g extMap st f = .ok st' → st'.copied = st.copied) := by
  refine ⟨?_, ?_, ?_⟩
  case refine_2 =>
    intro hni
    unfold dstPath
    have hsplit : ("content/" ++ joinSegs f.segs).toList =
        "content/".toList ++ (joinSegs f.segs).toList := String.data_append _ _
    rw [hsplit,
      show replaceContent ("content/".toList ++ (joinSegs f.segs).toList) =
        "_site/".toList ++ replaceContent (joinSegs f.segs).toList from rfl,
      replaceContent_eq_self _ hni, List.asString_eq]
    exact (String.data_append _ _).symm
  · intro hne hnm
    have hip : is_pandoc extMap (srcPath f.segs) = false := by
      rw [← Bool.not_eq_true]
      intro hc
      exact hnm (List.elem_iff.mp hc)
    have hcond : ((splitext (srcPath f.segs)).2 ≠ "" &&
        !is_pandoc extMap (srcPath f.segs)) = true := by
      simp [hne, hip]
    simp only [processFile]
    rw [hcond]
    rfl
  · intro hroute st' hps
    have hcond : ((splitext (srcPath f.segs)).2 ≠ "" &&
        !is_pandoc extMap (srcPath f.segs)) = false := by
      rcases hroute with h | h
      · simp [h]
      · have : is_pandoc extMap (srcPath f.segs) = true := List.elem_iff.mpr h
        simp [this]
    simp only [processFile] at hps
    rw [hcond] at hps
    simp only [Bool.false_eq_true, if_false] at hps
    split at hps
    · obtain rfl : _ = st' := Except.ok.inj hps
      rfl
    · split at hps
      · exact Except.noConfusion hps
      · split at hps
        · obtain rfl : _ = st' := Except.ok.inj hps
          rfl
        · split at hps
          · obtain rfl : _ = st' := Except.ok.inj hps
            rfl
          · exact Except.noConfusion hps

/-- Witness for `C4_amended`: `content/img.txt` (unknown non-empty
extension) is copied, and its destination is the mirrored path
`_site/img.txt`; `content/noext` (no extension) leaves the copied list
untouched. -/
theorem C4_amended_witness :
    processFile [] [".md"] initState ⟨["img.txt"], "2024-01-02", .ok ⟨[], ""⟩⟩ =
      .ok { initState with copied := [dstPath ["img.txt"]] } ∧
    dstPath ["img.txt"] = "_site/" ++ joinSegs ["img.txt"] ∧
    ((create_pages [] [".md"]
        [⟨["noext"], "2024-01-02", .ok ⟨[], "<p>x</p>"⟩⟩]).toOption.getD
      initState).copied = initState.copied :=
  ⟨(C4_amended [] [".md"] initState ⟨["img.txt"], "2024-01-02", .ok ⟨[], ""⟩⟩).1
      (by decide) (by decide),
   (C4_amended [] [".md"] initState
      ⟨["img.txt"], "2024-01-02", .ok ⟨[], ""⟩⟩).2.1 (by decide),
   (C4_amended [] [".md"] initState
      ⟨["noext"], "2024-01-02", .ok ⟨[], "<p>x</p>"⟩⟩).2.2 (Or.inl (by decide))
      (((create_pages [] [".md"]
        [⟨["noext"], "2024-01-02", .ok ⟨[], "<p>x</p>"⟩⟩]).toOption).getD initState)
      rfl⟩

/-! ## Claim C7 — index ordering: stable sort by date descending -/

theorem leChars_refl (a : List Char) : leChars a a = true := by
  induction a with
  | nil => rfl
  | cons c cs ih => simp [leChars, ih]

/-- Equal-date stability of the descending sort: filtering the sorted
list down to any single date value returns those pages in their original
discovery order. -/
theorem pySortDescByDate_filter_stable (metas : List PageMeta) (d : String) :
    (pySortDescByDate metas).filter (fun m => dateKey m == d) =
      metas.filter (fun m => dateKey m == d) := by
  have hA : (metas.filter (fun m => dateKey m == d)).Pairwise dateDesc := by
    refine List.pairwise_of_forall_mem_list ?_
    intro x hx y hy
    have hxd : dateKey x = d := by
      have := List.of_mem_filter hx
      simpa using this
    have hyd : dateKey y = d := by
      have := List.of_mem_filter hy
      simpa using this
    show pyLe (dateKey y) (dateKey x) = true
    rw [hxd, hyd]
    exact leChars_refl d.toList
  have h2 : List.Sublist (metas.filter (fun m => dateKey m == d))
      (pySortDescByDate metas) :=
    List.sublist_insertionSort hA (List.filter_sublist metas)
  have h3 : (metas.filter (fun m => dateKey m == d)).filter
      (fun m => dateKey m == d) = metas.filter (fun m => dateKey m == d) := by
    rw [List.filter_filter]
    simp
  have h4 : List.Sublist (metas.filter (fun m => dateKey m == d))
      ((pySortDescByDate metas).filter (fun m => dateKey m == d)) := by
    rw [← h3]
    exact h2.filter _
  have h5 : List.Perm ((pySortDescByDate metas).filter (fun m => dateKey m == d))
      (metas.filter (fun m => dateKey m == d)) :=
    (List.perm_insertionSort dateDesc metas).filter _
  exact (h4.eq_of_length h5.length_eq.symm).symm

/-- C7 (confirmed): every category index renders exactly its collected
metadata sorted by `date` descending, the sort is a permutation, it is
sorted under `dateDesc`, and it is stable — pages with equal dates keep
their discovery order; the home index is likewise a
sorted-descending (truncated) sequence. -/
theorem C7_index_order (g : PageMeta) (c2m : List (String × List PageMeta))
    (cat : String) (metas : List PageMeta) (hmem : (cat, metas) ∈ c2m) :
    (∃ io ∈ create_indexes g c2m, io.path = cat ∧
      io.indexMetas = pySortDescByDate metas) ∧
    List.Perm (pySortDescByDate metas) metas ∧
    (pySortDescByDate metas).Sorted dateDesc ∧
    (∀ d : String, (pySortDescByDate metas).filter (fun m => dateKey m == d) =
      metas.filter (fun m => dateKey m == d)) ∧
    (∃ io ∈ create_indexes g c2m, io.path = "" ∧
      io.indexMetas = (pySortDescByDate (c2m.map Prod.snd).flatten).take nposts ∧
      io.indexMetas.Sorted dateDesc) := by
  refine ⟨?_, List.perm_insertionSort dateDesc metas,
    List.sorted_insertionSort dateDesc metas,
    fun d => pySortDescByDate_filter_stable metas d, ?_⟩
  · refine ⟨create_index (pySortDescByDate metas) cat
      (dupdate (dset [] "title" (.str (pyCapitalize cat))) g), ?_, rfl, rfl⟩
    unfold create_indexes
    refine List.mem_append_left _ ?_
    have := List.mem_map_of_mem (fun p : String × List PageMeta =>
      create_index (pySortDescByDate p.2) p.1
        (dupdate (dset [] "title" (.str (pyCapitalize p.1))) g)) hmem
    exact this
  · refine ⟨create_index ((pySortDescByDate (c2m.map Prod.snd).flatten).take nposts)
      "" (dupdate (dset [] "title"
        (.str ("Most recent " ++ toString nposts ++ " posts"))) g), ?_, rfl, rfl, ?_⟩
    · unfold create_indexes
      exact List.mem_append_right _ (List.mem_singleton.mpr rfl)
    · exact (List.sorted_insertionSort dateDesc _).sublist
        (List.take_sublist _ _)

/-- Witness for `C7_index_order` at the spec's example dates
`["2024-01-01","2024-03-01","2024-02-01"]` plus an equal-date pair: the
rendered order is `2024-03-01, 2024-02-01, 2024-01-01`, and the two
`2024-03-01` pages keep their discovery order. -/
theorem C7_index_order_witness :
    pySortDescByDate
      [[("date", PyVal.str "2024-01-01"), ("title", .str "a")],
       [("date", PyVal.str "2024-03-01"), ("title", .str "b")],
       [("date", PyVal.str "2024-02-01"), ("title", .str "c")],
       [("date", PyVal.str "2024-03-01"), ("title", .str "d")]] =
      [[("date", PyVal.str "2024-03-01"), ("title", .str "b")],
       [("date", PyVal.str "2024-03-01"), ("title", .str "d")],
       [("date", PyVal.str "2024-02-01"), ("title", .str "c")],
       [("date", PyVal.str "2024-01-01"), ("title", .str "a")]] ∧
    (pySortDescByDate
      [[("date", PyVal.str "2024-01-01"), ("title", .str "a")],
       [("date", PyVal.str "2024-03-01"), ("title", .str "b")],
       [("date", PyVal.str "2024-02-01"), ("title", .str "c")],
       [("date", PyVal.str "2024-03-01"), ("title", .str "d")]]).Sorted dateDesc ∧
    (pySortDescByDate
      [[("date", PyVal.str "2024-01-01"), ("title", .str "a")],
       [("date", PyVal.str "2024-03-01"), ("title", .str "b")],
       [("date", PyVal.str "2024-02-01"), ("title", .str "c")],
       [("date", PyVal.str "2024-03-01"), ("title", .str "d")]]).filter
        (fun m => dateKey m == "2024-03-01") =
      [[("date", PyVal.str "2024-03-01"), ("title", .str "b")],
       [("date", PyVal.str "2024-03-01"), ("title", .str "d")]] := by
  have h := C7_index_order []
    [("blog", [[("date", PyVal.str "2024-01-01"), ("title", .str "a")],
               [("date", PyVal.str "2024-03-01"), ("title", .str "b")],
               [("date", PyVal.str "2024-02-01"), ("title", .str "c")],
               [("date", PyVal.str "2024-03-01"), ("title", .str "d")]])]
    "blog"
    [[("date", PyVal.str "2024-01-01"), ("title", .str "a")],
     [("date", PyVal.str "2024-03-01"), ("title", .str "b")],
     [("date", PyVal.str "2024-02-01"), ("title", .str "c")],
     [("date", PyVal.str "2024-03-01"), ("title", .str "d")]]
    (List.mem_singleton.mpr rfl)
  refine ⟨by decide, h.2.2.1, ?_⟩
  rw [h.2.2.2.1 "2024-03-01"]
  decide

/-! ## Claim C8 — the home index -/

/-- C8 (confirmed): `create_indexes` always also builds one home index
through the same `create_index` rendering path, at path `""` (written to
`_site//index.html` and `_site//rss.xml`, i.e. the output root), whose
sequence is the first `nposts = 10` entries of all category metadata
combined sorted by date descending — so it has `min 10 total` entries,
and every selected page's date is at least every unselected page's
date. -/
theorem C8_home_index (g : PageMeta) (c2m : List (String × List PageMeta)) :
    nposts = 10 ∧
    ∃ io ∈ create_indexes g c2m,
      io.path = "" ∧ io.htmlDst = "/index.html" ∧ io.rssDst = "/rss.xml" ∧
      io.indexMetas =
        (pySortDescByDate (c2m.map Prod.snd).flatten).take nposts ∧
      io.indexMetas.length = min nposts ((c2m.map Prod.snd).flatten).length ∧
      (∀ x ∈ io.indexMetas,
        ∀ y ∈ (pySortDescByDate (c2m.map Prod.snd).flatten).drop nposts,
          dateDesc x y) := by
  refine ⟨rfl,
    create_index ((pySortDescByDate (c2m.map Prod.snd).flatten).take nposts) ""
      (dupdate (dset [] "title"
        (.str ("Most recent " ++ toString nposts ++ " posts"))) g), ?_,
    rfl, rfl, rfl, rfl, ?_, ?_⟩
  · unfold create_indexes
    exact List.mem_append_right _ (List.mem_singleton.mpr rfl)
  · show ((pySortDescByDate (c2m.map Prod.snd).flatten).take nposts).length = _
    rw [List.length_take]
    congr 1
    exact (List.perm_insertionSort dateDesc (c2m.map Prod.snd).flatten).length_eq
  · intro x hx y hy
    have hs : (pySortDescByDate (c2m.map Prod.snd).flatten).Sorted dateDesc :=
      List.sorted_insertionSort dateDesc _
    have hsplit := List.take_append_drop nposts
      (pySortDescByDate (c2m.map Prod.snd).flatten)
    have hp : ((pySortDescByDate (c2m.map Prod.snd).flatten).take nposts ++
        (pySortDescByDate (c2m.map Prod.snd).flatten).drop nposts).Pairwise
        dateDesc := hsplit.symm ▸ hs
    exact (List.pairwise_append.mp hp).2.2 x hx y hy

/-- Witness for `C8_home_index` at a concrete two-category collection. -/
theorem C8_home_index_witness :
    nposts = 10 ∧
    ∃ io ∈ create_indexes []
      [("blog", [[("date", PyVal.str "2024-01-01")],
                 [("date", PyVal.str "2024-03-01")]]),
       ("news", [[("date", PyVal.str "2024-02-01")]])],
      io.path = "" ∧ io.htmlDst = "/index.html" ∧ io.rssDst = "/rss.xml" ∧
      io.indexMetas =
        (pySortDescByDate ([("blog", [[("date", PyVal.str "2024-01-01")],
            [("date", PyVal.str "2024-03-01")]]),
          ("news", [[("date", PyVal.str "2024-02-01")]])].map
            Prod.snd).flatten).take nposts ∧
      io.indexMetas.length =
        min nposts (([("blog", [[("date", PyVal.str "2024-01-01")],
            [("date", PyVal.str "2024-03-01")]]),
          ("news", [[("date", PyVal.str "2024-02-01")]])].map
            Prod.snd).flatten).length ∧
      (∀ x ∈ io.indexMetas,
        ∀ y ∈ (pySortDescByDate ([("blog", [[("date", PyVal.str "2024-01-01")],
            [("date", PyVal.str "2024-03-01")]]),
          ("news", [[("date", PyVal.str "2024-02-01")]])].map
            Prod.snd).flatten).drop nposts,
          dateDesc x y) :=
  C8_home_index []
    [("blog", [[("date", PyVal.str "2024-01-01")],
               [("date", PyVal.str "2024-03-01")]]),
     ("news", [[("date", PyVal.str "2024-02-01")]])]

/-! ## Claim C10 — front-matter overrides -/

/-- C10 (confirmed): keys supplied by the document's front matter are
folded in by `meta.update(docmeta)` after the path-derived metadata is
assigned and before `rfc_2822_date` is computed, so a front-matter `date`
overrides the filename- or mtime-derived date, `rfc_2822_date` is
computed from the overriding value, and front-matter `title`, `relpath`
and `category` values likewise replace the path-derived ones. -/
theorem C10_override (segs : List String) (lm : String) (doc : PandocDoc)
    (pm dm : PageMeta) (d r : String)
    (hpm : pathMeta segs lm = some pm)
    (hdm : meta2dictEntries doc.docMeta = .ok dm)
    (hnd : (dm.map Prod.fst).Nodup)
    (hd : dget dm "date" = some (.str d))
    (hr : rfc2822OfDate d = some r) :
    ∃ m, getmeta segs lm doc = .ok (m, []) ∧
      dget m "date" = some (.str d) ∧
      dget m "rfc_2822_date" = some (.str r) ∧
      (∀ v, dget dm "title" = some v → dget m "title" = some v) ∧
      (∀ v, dget dm "relpath" = some v → dget m "relpath" = some v) ∧
      (∀ v, dget dm "category" = some v → dget m "category" = some v) := by
  have hdate : dget (dupdate pm dm) "date" = some (.str d) :=
    dget_dupdate_of_some _ _ _ _ hnd hd
  refine ⟨dsetdefault (dset (dupdate pm dm) "rfc_2822_date" (.str r))
    "summary" (.str ""), ?_, ?_, ?_, ?_, ?_, ?_⟩
  · simp only [getmeta, hpm, hdm, hdate, hr]
  · rw [dget_dsetdefault_ne _ _ _ _ (by decide),
      dget_dset_ne _ _ _ _ (by decide)]
    exact hdate
  · rw [dget_dsetdefault_ne _ _ _ _ (by decide), dget_dset_self]
  · intro v hv
    rw [dget_dsetdefault_ne _ _ _ _ (by decide),
      dget_dset_ne _ _ _ _ (by decide)]
    exact dget_dupdate_of_some _ _ _ _ hnd hv
  · intro v hv
    rw [dget_dsetdefault_ne _ _ _ _ (by decide),
      dget_dset_ne _ _ _ _ (by decide)]
    exact dget_dupdate_of_some _ _ _ _ hnd hv
  · intro v hv
    rw [dget_dsetdefault_ne _ _ _ _ (by decide),
      dget_dset_ne _ _ _ _ (by decide)]
    exact dget_dupdate_of_some _ _ _ _ hnd hv

/-- Witness for `C10_override`: a page at `content/blog/2024-03-01-x.md`
whose front matter supplies `date: 2024-05-06` and `title`, `relpath`,
`category` overrides. -/
theorem C10_override_witness :
    ∃ m, getmeta ["blog", "2024-03-01-x.md"] "2024-01-02"
        ⟨[("date", .metaLeaf "2024-05-06"), ("title", .metaInlines "Better title"),
          ("relpath", .metaLeaf "other/place.html"),
          ("category", .metaLeaf "special")], "<p>x</p>"⟩ = .ok (m, []) ∧
      dget m "date" = some (.str "2024-05-06") ∧
      dget m "rfc_2822_date" = some (.str "Mon, 06 May 2024 00:00:00 +0000") ∧
      (∀ v, dget [("date", PyVal.str "2024-05-06"), ("title", .str "Better title"),
          ("relpath", .str "other/place.html"), ("category", .str "special")]
          "title" = some v → dget m "title" = some v) ∧
      (∀ v, dget [("date", PyVal.str "2024-05-06"), ("title", .str "Better title"),
          ("relpath", .str "other/place.html"), ("category", .str "special")]
          "relpath" = some v → dget m "relpath" = some v) ∧
      (∀ v, dget [("date", PyVal.str "2024-05-06"), ("title", .str "Better title"),
          ("relpath", .str "other/place.html"), ("category", .str "special")]
          "category" = some v → dget m "category" = some v) :=
  C10_override ["blog", "2024-03-01-x.md"] "2024-01-02"
    ⟨[("date", .metaLeaf "2024-05-06"), ("title", .metaInlines "Better title"),
      ("relpath", .metaLeaf "other/place.html"),
      ("category", .metaLeaf "special")], "<p>x</p>"⟩
    _ _ "2024-05-06" "Mon, 06 May 2024 00:00:00 +0000"
    rfl rfl (by decide) rfl (by decide)

/-- Witness for `C5_date_title` at `2024-03-01-hello.md` (date prefix)
and `hello.md` (no prefix, mtime fallback). -/
theorem C5_date_title_witness :
    (dget ((pathMeta ["2024-03-01-hello.md"] "2024-02-02").getD []) "date" =
        some (.str "2024-03-01") ∧
      dget ((pathMeta ["2024-03-01-hello.md"] "2024-02-02").getD []) "title" =
        some (.str "hello")) ∧
    (dget ((pathMeta ["hello.md"] "2023-12-31").getD []) "date" =
        some (.str "2023-12-31") ∧
      dget ((pathMeta ["hello.md"] "2023-12-31").getD []) "title" =
        some (.str "hello")) :=
  ⟨(C5_date_title ["2024-03-01-hello.md"] "2024-02-02").1
      "2024-03-01".toList "hello".toList (by decide) (by decide) (by decide)
      (by decide) _ rfl,
   (C5_date_title ["hello.md"] "2023-12-31").2 (by decide) (by decide)
      (Or.inl (by decide)) _ rfl⟩

end Makesite
